import Mathlib

/-!
Verification of the CrabShell (HermitShell) sandbox lifecycle and
trigger-orchestration engine against its natural-language specification.

The development shallowly embeds the relevant TypeScript sources:
  * `shell/src/telegram.ts` — chat orchestration, approval callbacks,
    delegation handling, message splitting;
  * `shell/src/docker.ts`   — the Sandbox Runtime Adapter (`spawnAgent`);
  * `shell/src/history.ts`  — per-workspace calendar store, in particular
    `createCalendarEvent` and `claimDueCalendarEvents`.

JavaScript strings are modelled as Lean `String`s (lengths and slices are
counted in characters rather than UTF-16 code units; no claim depends on
astral-plane characters).  SQLite TEXT timestamps are modelled as `String`s
compared lexicographically, matching SQLite's memcmp ordering on ASCII
ISO-8601 timestamps.  Functions that live in `shell/src/db.ts` (not part of
the provided sources) appear either as environment oracles or, where a claim
depends on their behaviour, as definitions modelled from the spec and marked
as such.
-/

/-! ### Message splitting (`splitMessage`, telegram.ts lines 79-99) -/

/-- `TELEGRAM_MAX_LENGTH` constant from `shell/src/telegram.ts`. -/
def TELEGRAM_MAX_LENGTH : Nat := 4000

/-- JS `remaining.lastIndexOf('\n', pos)`: the largest index `i ≤ pos` such
that the character at `i` is a newline, `none` when there is no such index
(the source's `-1`). -/
def lastNewlineLE (l : List Char) (pos : Nat) : Option Nat :=
  ((((l.take (pos + 1)).enum.filter (fun p => p.2 == '\n')).getLast?).map (fun p => p.1))

/-- The `splitPoint` computed by one iteration of the `while` loop in
`splitMessage`: start from `maxLength`; if the last newline at index
`≤ maxLength` sits strictly beyond `maxLength * 0.5`, split just after it.
`2 * i > maxLength` is the exact integer form of the source's
`newlineIndex > maxLength * 0.5`. -/
def splitPointOf (maxLength : Nat) (remaining : List Char) : Nat :=
  match lastNewlineLE remaining maxLength with
  | some i => if 2 * i > maxLength then i + 1 else maxLength
  | none => maxLength

/-- The `while` loop of `splitMessage`, with an explicit fuel argument so the
definition is structurally recursive.  `splitMessage` passes
`fuel = text.length`, which is always sufficient for `maxLength ≥ 1` because
every iteration consumes at least one character; the fuel-exhausted branch
mirrors the loop exit and is only reachable with `remaining = []`.  (For
`maxLength = 0` the source loops forever; the embedding is only faithful for
`maxLength ≥ 1`, and every call site passes `4000`.) -/
def splitGo (maxLength : Nat) : Nat → List Char → List (List Char)
  | 0, remaining => if remaining.length > 0 then [remaining] else []
  | fuel + 1, remaining =>
    if remaining.length ≤ maxLength then
      (if remaining.length > 0 then [remaining] else [])
    else
      let sp := splitPointOf maxLength remaining
      remaining.take sp :: splitGo maxLength fuel (remaining.drop sp)

/-- `splitMessage` from `shell/src/telegram.ts` (the `maxLength` parameter
defaults to `TELEGRAM_MAX_LENGTH = 4000` at the call site). -/
def splitMessage (text : String) (maxLength : Nat) : List String :=
  (splitGo maxLength text.data.length text.data).map (fun l => String.mk l)

theorem lastNewlineLE_le {l : List Char} {pos i : Nat}
    (h : lastNewlineLE l pos = some i) : i ≤ pos := by
  unfold lastNewlineLE at h
  rcases Option.map_eq_some'.mp h with ⟨⟨j, c⟩, hj, rfl⟩
  have hmem : (j, c) ∈ (l.take (pos + 1)).enum.filter (fun p => p.2 == '\n') :=
    List.mem_of_mem_getLast? hj
  have hmem' := (List.mem_filter.mp hmem).1
  have := (List.mem_enumFrom hmem').2.1
  have hlen : (l.take (pos + 1)).length ≤ pos + 1 := by
    simp [List.length_take]
  omega

theorem splitPointOf_pos {maxLength : Nat} (h : 1 ≤ maxLength)
    (remaining : List Char) : 1 ≤ splitPointOf maxLength remaining := by
  rcases hni : lastNewlineLE remaining maxLength with _ | i <;>
    simp only [splitPointOf, hni] <;> first | exact h | split <;> omega

theorem splitPointOf_le {maxLength : Nat} (remaining : List Char) :
    splitPointOf maxLength remaining ≤ maxLength + 1 := by
  rcases hni : lastNewlineLE remaining maxLength with _ | i
  · simp only [splitPointOf, hni]; omega
  · have := lastNewlineLE_le hni
    simp only [splitPointOf, hni]; split <;> omega

theorem splitGo_concat (maxLength fuel : Nat) (remaining : List Char) :
    (splitGo maxLength fuel remaining).foldr (· ++ ·) [] = remaining := by
  induction fuel generalizing remaining with
  | zero =>
    by_cases h : remaining.length > 0 <;> simp [splitGo, h]
    cases remaining with
    | nil => rfl
    | cons a l => simp at h
  | succ fuel ih =>
    by_cases h : remaining.length ≤ maxLength
    · by_cases h0 : remaining.length > 0 <;> simp [splitGo, h, h0]
      cases remaining with
      | nil => rfl
      | cons a l => simp at h0
    · simp only [splitGo, if_neg h, List.foldr_cons, ih]
      exact List.take_append_drop _ remaining

theorem splitGo_chunk_le {maxLength : Nat} (h1 : 1 ≤ maxLength) :
    ∀ (fuel : Nat) (remaining : List Char), remaining.length ≤ fuel →
    ∀ c ∈ splitGo maxLength fuel remaining, c.length ≤ maxLength + 1 := by
  intro fuel
  induction fuel with
  | zero =>
    intro remaining hle c hc
    have : remaining = [] := List.eq_nil_of_length_eq_zero (by omega)
    subst this
    simp [splitGo] at hc
  | succ fuel ih =>
    intro remaining hle c hc
    by_cases h : remaining.length ≤ maxLength
    · simp only [splitGo, if_pos h] at hc
      by_cases h0 : remaining.length > 0
      · simp [h0] at hc
        subst hc; omega
      · simp [h0] at hc
    · simp only [splitGo, if_neg h] at hc
      rcases List.mem_cons.mp hc with hc | hc
      · subst hc
        have := @splitPointOf_le maxLength remaining
        simp only [List.length_take]
        omega
      · have hsp := splitPointOf_pos h1 remaining
        refine ih (remaining.drop (splitPointOf maxLength remaining)) ?_ c hc
        simp only [List.length_drop]
        omega

/-- C10 counterexample: with `maxLength = 4`, the input `"aaaa\nb"` has a
newline exactly at index `maxLength`; `lastIndexOf` finds it, the split point
becomes `maxLength + 1`, and the first chunk `"aaaa\n"` has length 5 > 4.  So
the claim that every chunk's length is at most the `maxLength` argument is
false. -/
theorem claim_C10_counterexample :
    ¬ ∀ c ∈ splitMessage "aaaa\nb" 4, c.length ≤ 4 := by decide

theorem foldr_append_map_mk (L : List (List Char)) :
    (L.map (fun l => String.mk l)).foldr (· ++ ·) "" = String.mk (L.foldr (· ++ ·) []) := by
  induction L with
  | nil => rfl
  | cons a l ih => simp only [List.map_cons, List.foldr_cons, ih]; rfl

/-- C10 (amended): for every input string and every `maxLength ≥ 1` (the
source loops forever on `maxLength = 0`; all call sites pass 4000), the
concatenation of the chunks returned by `splitMessage` equals the original
text, and every chunk's length is at most `maxLength + 1` — one more than
the claimed bound, reachable exactly when a newline sits at index
`maxLength` of the remaining text. -/
theorem claim_C10 (text : String) (maxLength : Nat) (h1 : 1 ≤ maxLength) :
    (splitMessage text maxLength).foldr (· ++ ·) "" = text ∧
    ∀ c ∈ splitMessage text maxLength, c.length ≤ maxLength + 1 := by
  constructor
  · unfold splitMessage
    rw [foldr_append_map_mk, splitGo_concat]
  · intro c hc
    unfold splitMessage at hc
    rcases List.mem_map.mp hc with ⟨cl, hcl, rfl⟩
    have := splitGo_chunk_le h1 text.data.length text.data le_rfl cl hcl
    simpa using this

theorem claim_C10_witness :
    (splitMessage "aaaa\nb" 4).foldr (· ++ ·) "" = "aaaa\nb" ∧
    ∀ c ∈ splitMessage "aaaa\nb" 4, c.length ≤ 5 :=
  claim_C10 "aaaa\nb" 4 (by decide)

/-! ### Sandbox Runtime Adapter (`spawnAgent`, docker.ts lines 33-118)

`spawnAgent` creates and starts a container, follows its combined
stdout+stderr log stream, arms a 60-second timer whose callback only calls
`container.stop()`, and settles its promise from the stream's `end`/`error`
handlers.  The asynchronous part is embedded as a small event loop: a run is
a list of events (data chunks, the timer firing, the stream ending or
erroring) processed in order against a mutable state. -/

/-- Result of `spawnAgent` (`SpawnResult` in docker.ts). -/
structure SpawnResult where
  containerId : String
  output : String
deriving Repr, DecidableEq

/-- One asynchronous occurrence during a `spawnAgent` run: a `data` chunk
arriving on the log stream, the 60-second wall-clock timer firing, the
stream ending, or the stream erroring. -/
inductive StreamEvent where
  | data (chunk : String)
  | timerFires
  | ended
  | errored (msg : String)
deriving Repr, DecidableEq

/-- The mutable state of one `spawnAgent` promise: the accumulated `output`
string, whether the timeout callback has called `container.stop()`, whether
`clearTimeout` has run, and the settled promise value (`none` while
pending; `Except.error` models `reject`). -/
structure SpawnState where
  output : String
  stopped : Bool
  timeoutCleared : Bool
  result : Option (Except String SpawnResult)
deriving Repr

/-- JS `str.split('\n')` at character level (splitting on every newline;
the empty string yields one empty piece, exactly as in JS). -/
def splitLines (l : List Char) : List (List Char) :=
  l.foldr
    (fun c acc =>
      if c = '\n' then [] :: acc
      else
        match acc with
        | [] => [[c]]
        | a :: rest => (c :: a) :: rest)
    [[]]

/-- JS `str.trim()` at character level: strip whitespace from both ends. -/
def trimChars (l : List Char) : List Char :=
  ((l.dropWhile Char.isWhitespace).reverse.dropWhile Char.isWhitespace).reverse

/-- The opening-brace character `'\x7b'`, the JSON-object marker that
`spawnAgent` filters on. -/
def leftBrace : Char := Char.ofNat 123

/-- The `filter` predicate from docker.ts line 97:
`l.trim() && !l.startsWith('{')` — keep a line iff its trimmed form is
non-empty and it does not begin with the JSON-object marker. -/
def keepLine (l : List Char) : Bool :=
  !(trimChars l == []) && !(l.head? == some leftBrace)

/-- `lines.join('\n')` at character level. -/
def joinNL : List (List Char) → List Char
  | [] => []
  | [a] => a
  | a :: rest => a ++ '\n' :: joinNL rest

/-- The line filtering and defaulting applied by `spawnAgent`'s `end`
handler: `output.split('\n').filter(l => l.trim() && !l.startsWith('{'))`,
joined with newlines, trimmed, and replaced by the fixed placeholder when
empty (`result || 'No response from agent'`, an empty string being falsy). -/
def finalizeOutput (raw : String) : String :=
  let lines := (splitLines raw.data).filter keepLine
  let result := trimChars (joinNL lines)
  if result == [] then "No response from agent" else String.mk result

/-- One step of the `spawnAgent` event loop (the handlers installed in
docker.ts lines 84-108).  The `data` handler appends the chunk; the timer
callback stops the container (and nothing else — it neither resolves nor
rejects the promise); `end` clears the timer and resolves with the filtered
output; `error` clears the timer and rejects.  A settled promise ignores
later settlement attempts. -/
def spawnStep (cid : String) (st : SpawnState) : StreamEvent → SpawnState
  | .data chunk => { st with output := st.output ++ chunk }
  | .timerFires => if st.timeoutCleared then st else { st with stopped := true }
  | .ended =>
    { st with
      timeoutCleared := true
      result := match st.result with
        | some r => some r
        | none => some (Except.ok ⟨cid, finalizeOutput st.output⟩) }
  | .errored msg =>
    { st with
      timeoutCleared := true
      result := match st.result with
        | some r => some r
        | none => some (Except.error msg) }

/-- A whole `spawnAgent` run: process the run's events in order starting
from the fresh-promise state. -/
def runSpawn (cid : String) (events : List StreamEvent) : SpawnState :=
  events.foldl (spawnStep cid) ⟨"", false, false, none⟩

/-- C3 counterexample: a run in which a data chunk `"hello"` arrives, then
the 60-second timer fires (before the stream has ended), then the stream
ends.  The environment is stopped, but the promise resolves with the
captured output `"hello"` — the pre-timeout output is returned to the
caller, not discarded. -/
theorem claim_C3_counterexample :
    (runSpawn "c0" [.data "hello", .timerFires, .ended]).stopped = true ∧
    (runSpawn "c0" [.data "hello", .timerFires, .ended]).result =
      some (Except.ok ⟨"c0", "hello"⟩) := by
  constructor <;> rfl

theorem string_foldl_append (acc : String) (l : List String) :
    (l.foldl (· ++ ·) acc).data = acc.data ++ (l.foldl (· ++ ·) "").data := by
  induction l generalizing acc with
  | nil => simp
  | cons x xs ih =>
    simp only [List.foldl_cons]
    rw [ih (acc ++ x), ih ("" ++ x)]
    simp [String.data_append, List.append_assoc]

theorem stringJoin_cons (c : String) (cs : List String) :
    String.join (c :: cs) = c ++ String.join cs := by
  apply String.ext
  show (List.foldl (· ++ ·) ("" ++ c) cs).data = _
  rw [string_foldl_append ("" ++ c) cs]
  simp [String.join, String.data_append]

theorem runSpawn_data_prefix (cid : String) (st : SpawnState) (chunks : List String) :
    (chunks.map StreamEvent.data).foldl (spawnStep cid) st =
      { st with output := st.output ++ String.join chunks } := by
  induction chunks generalizing st with
  | nil =>
    show st = _
    have : String.join [] = "" := rfl
    simp [this]
  | cons c cs ih =>
    simp only [List.map_cons, List.foldl_cons, spawnStep, ih]
    rw [stringJoin_cons, ← String.append_assoc]

/-- C3 (amended): when the wall-clock timeout fires before the output stream
ends, the environment is forcibly stopped — but the output captured up to
that point is *not* discarded: when the (now stopping) stream subsequently
ends, the promise resolves normally with the filtered captured output (or
the placeholder if nothing printable was captured). -/
theorem claim_C3 (cid : String) (pre post : List String) :
    (runSpawn cid ((pre.map .data) ++ [.timerFires] ++ (post.map .data) ++ [.ended])).stopped
        = true ∧
    (runSpawn cid ((pre.map .data) ++ [.timerFires] ++ (post.map .data) ++ [.ended])).result
        = some (Except.ok ⟨cid, finalizeOutput (String.join pre ++ String.join post)⟩) := by
  unfold runSpawn
  rw [List.foldl_append, List.foldl_append, List.foldl_append, runSpawn_data_prefix]
  simp only [List.foldl_cons, List.foldl_nil, spawnStep, runSpawn_data_prefix]
  constructor <;> rfl

/-- Claim C4's description of the output filtering, written from the spec's
words: the stream's text split on newlines, with blank lines (lines whose
trimmed form is empty) and lines beginning with a JSON-object marker
removed, rejoined with newlines and trimmed. -/
def specFilteredText (raw : String) : String :=
  String.mk (trimChars (joinNL ((splitLines raw.data).filter
    (fun l => decide (¬ trimChars l = [] ∧ ¬ l.head? = some leftBrace)))))

/-- C4: for every captured stream (any list of data chunks followed by the
stream's `end`), `spawnAgent` resolves with exactly the filtered text the
claim describes, and whenever that filtered text is empty the returned
output is the fixed placeholder `"No response from agent"`. -/
theorem claim_C4 (cid : String) (chunks : List String) (raw : String) :
    (runSpawn cid (chunks.map .data ++ [.ended])).result
      = some (Except.ok ⟨cid, finalizeOutput (String.join chunks)⟩) ∧
    finalizeOutput raw =
      (if specFilteredText raw = "" then "No response from agent"
       else specFilteredText raw) := by
  constructor
  · unfold runSpawn
    rw [List.foldl_append, runSpawn_data_prefix]
    rfl
  · have hfil : (splitLines raw.data).filter
        (fun l => decide (¬ trimChars l = [] ∧ ¬ l.head? = some leftBrace))
        = (splitLines raw.data).filter keepLine := by
      apply List.filter_congr
      intro l _
      by_cases ht : trimChars l = [] <;> by_cases hh : l.head? = some leftBrace <;>
        simp [keepLine, ht, hh, List.isEmpty_iff]
    unfold finalizeOutput specFilteredText
    rw [hfil]
    have h0 : String.mk ([] : List Char) = "" := rfl
    by_cases hres : trimChars (joinNL ((splitLines raw.data).filter keepLine)) = []
    · simp [hres, h0]
    · have hb : (trimChars (joinNL ((splitLines raw.data).filter keepLine)) == []) = false := by
        simpa using hres
      have hne : ¬ String.mk (trimChars (joinNL ((splitLines raw.data).filter keepLine))) = "" := by
        intro hcontra
        apply hres
        have h2 := congrArg String.data hcontra
        simpa using h2
      simp [hb, hne]

/-! ### Calendar store (`history.ts`)

The per-workspace `calendar_events` table is modelled as a list of rows.
SQLite TEXT timestamps are `String`s under lexicographic order (memcmp, as
SQLite compares TEXT), `NULL`able columns are `Option String`, and
`INTEGER PRIMARY KEY` ids are `Nat`s.  `CURRENT_TIMESTAMP` is passed in as
an explicit clock argument `ts`. -/

/-- A row of `calendar_events` (the `CalendarEvent` interface in
history.ts). -/
structure CalendarEvent where
  id : Nat
  agent_id : Nat
  title : String
  prompt : String
  start_time : String
  end_time : Option String
  target_user_id : Nat
  color : Option String
  symbol : Option String
  status : String
  last_error : Option String
  started_at : Option String
  completed_at : Option String
  created_at : String
  updated_at : String
deriving Repr, DecidableEq

/-- SQLite's TEXT comparison (memcmp), embedded as lexicographic order on
character lists (identical to memcmp for the ASCII ISO-8601 timestamps the
store holds). -/
def lexLE : List Char → List Char → Bool
  | [], _ => true
  | _ :: _, [] => false
  | a :: as, b :: bs => if a < b then true else if b < a then false else lexLE as bs

theorem lexLE_refl : ∀ l : List Char, lexLE l l = true := by
  intro l
  induction l with
  | nil => rfl
  | cons a as ih => simp [lexLE, ih]

theorem lexLE_total : ∀ a b : List Char, lexLE a b = true ∨ lexLE b a = true := by
  intro a
  induction a with
  | nil => intro b; left; rfl
  | cons x xs ih =>
    intro b
    cases b with
    | nil => right; rfl
    | cons y ys =>
      rcases lt_trichotomy x y with h | h | h
      · left; simp [lexLE, h]
      · subst h
        rcases ih ys with h2 | h2
        · left; simp [lexLE, h2]
        · right; simp [lexLE, h2]
      · right; simp [lexLE, h]

theorem lexLE_trans : ∀ a b c : List Char,
    lexLE a b = true → lexLE b c = true → lexLE a c = true := by
  intro a
  induction a with
  | nil => intro b c _ _; rfl
  | cons x xs ih =>
    intro b c hab hbc
    cases b with
    | nil => simp [lexLE] at hab
    | cons y ys =>
      cases c with
      | nil => simp [lexLE] at hbc
      | cons z zs =>
        rcases lt_trichotomy x y with hxy | hxy | hxy
        · rcases lt_trichotomy y z with hyz | hyz | hyz
          · simp [lexLE, lt_trans hxy hyz]
          · subst hyz; simp [lexLE, hxy]
          · rcases lt_trichotomy x z with hxz | hxz | hxz
            · simp [lexLE, hxz]
            · subst hxz; simp [lexLE, hyz, not_lt_of_gt hyz] at hbc
            · exfalso
              simp [lexLE, hyz, not_lt_of_gt hyz] at hbc
        · subst hxy
          rcases lt_trichotomy x z with hxz | hxz | hxz
          · simp [lexLE, hxz]
          · subst hxz
            simp only [lexLE, lt_irrefl, if_neg (lt_irrefl x), if_false] at hab hbc ⊢
            exact ih ys zs hab hbc
          · exfalso
            simp [lexLE, hxz, not_lt_of_gt hxz] at hbc
        · exfalso
          simp [lexLE, hxy, not_lt_of_gt hxy] at hab

/-- `a <= b` on SQLite TEXT values. -/
def strLE (a b : String) : Prop := lexLE a.data b.data = true

instance (a b : String) : Decidable (strLE a b) := by
  unfold strLE; exact inferInstance

/-- The `end_time IS NULL OR end_time >= now` disjunct of the SELECT in
`claimDueCalendarEvents`. -/
def endOk (now : String) : Option String → Prop
  | none => True
  | some t => strLE now t

instance (now : String) : (o : Option String) → Decidable (endOk now o)
  | none => isTrue trivial
  | some t => inferInstanceAs (Decidable (strLE now t))

/-- The WHERE clause of the SELECT in `claimDueCalendarEvents`:
`status = 'scheduled' AND start_time <= now AND (end_time IS NULL OR
end_time >= now)`. -/
def IsDue (now : String) (e : CalendarEvent) : Prop :=
  e.status = "scheduled" ∧ strLE e.start_time now ∧ endOk now e.end_time

instance (now : String) (e : CalendarEvent) : Decidable (IsDue now e) := by
  unfold IsDue; exact inferInstance

/-- The `ORDER BY start_time ASC` ordering. -/
def startLE (a b : CalendarEvent) : Prop := strLE a.start_time b.start_time

instance : DecidableRel startLE := fun a b =>
  inferInstanceAs (Decidable (strLE a.start_time b.start_time))

instance : IsTotal CalendarEvent startLE :=
  ⟨fun a b => lexLE_total a.start_time.data b.start_time.data⟩

instance : IsTrans CalendarEvent startLE :=
  ⟨fun _ _ _ hab hbc => lexLE_trans _ _ _ hab hbc⟩

/-- The SELECT of `claimDueCalendarEvents` (history.ts lines 284-291):
all due rows, ordered by `start_time` ascending. -/
def selectDue (db : List CalendarEvent) (now : String) : List CalendarEvent :=
  List.insertionSort startLE (db.filter (fun e => decide (IsDue now e)))

/-- The SET part of the conditional UPDATE: `status = 'running',
started_at = CURRENT_TIMESTAMP, updated_at = CURRENT_TIMESTAMP`. -/
def setRunning (ts : String) (e : CalendarEvent) : CalendarEvent :=
  { e with status := "running", started_at := some ts, updated_at := ts }

/-- The conditional UPDATE of `claimDueCalendarEvents` (history.ts lines
297-302): `UPDATE calendar_events SET ... WHERE id = ? AND status =
'scheduled'`, returning the new table and `rowsAffected`. -/
def condClaim (ts : String) (db : List CalendarEvent) (i : Nat) :
    List CalendarEvent × Nat :=
  (db.map (fun e => if e.id = i ∧ e.status = "scheduled" then setRunning ts e else e),
   (db.filter (fun e => decide (e.id = i ∧ e.status = "scheduled"))).length)

/-- The `for (const event of due)` loop of `claimDueCalendarEvents`: run the
conditional UPDATE for each candidate in order, recording each candidate's
`rowsAffected`. -/
def claimLoop (ts : String) : List CalendarEvent → List CalendarEvent →
    List CalendarEvent × List (CalendarEvent × Nat)
  | db, [] => (db, [])
  | db, e :: rest =>
    let p := condClaim ts db e.id
    let q := claimLoop ts p.1 rest
    (q.1, (e, p.2) :: q.2)

/-- The `claimed.push({ ...event, status: 'running' })` performed for each
candidate whose update reported `rowsAffected > 0` (note the spread keeps
the candidate's SELECT-time fields and only overwrites `status`). -/
def claimedOf (outs : List (CalendarEvent × Nat)) : List CalendarEvent :=
  outs.filterMap (fun p => if p.2 > 0 then some { p.1 with status := "running" } else none)

/-- `claimDueCalendarEvents` from history.ts lines 281-310: SELECT the due
rows ordered by start time, conditionally claim each, and return the new
table together with the claimed events. -/
def claimDueCalendarEvents (db : List CalendarEvent) (now ts : String) :
    List CalendarEvent × List CalendarEvent :=
  let due := selectDue db now
  let r := claimLoop ts db due
  (r.1, claimedOf r.2)

/-- The caller-supplied fields of `createCalendarEvent`. -/
structure NewCalendarEvent where
  agent_id : Nat
  title : String
  prompt : String
  start_time : String
  end_time : Option String
  target_user_id : Nat
  color : Option String
  symbol : Option String

/-- JS `x || null` applied to the optional TEXT arguments of
`createCalendarEvent`: an absent or empty string is stored as NULL. -/
def orNull : Option String → Option String
  | none => none
  | some s => if s = "" then none else some s

/-- `createCalendarEvent` from history.ts lines 196-213: INSERT a new row
with status `'scheduled'`; `newId` is the fresh `lastInsertRowid` and `ts`
the row's `CURRENT_TIMESTAMP` defaults. -/
def createCalendarEvent (db : List CalendarEvent) (e : NewCalendarEvent)
    (newId : Nat) (ts : String) : List CalendarEvent :=
  db ++ [{ id := newId, agent_id := e.agent_id, title := e.title,
           prompt := e.prompt, start_time := e.start_time,
           end_time := orNull e.end_time, target_user_id := e.target_user_id,
           color := orNull e.color, symbol := orNull e.symbol,
           status := "scheduled", last_error := none, started_at := none,
           completed_at := none, created_at := ts, updated_at := ts }]

/-- An interleaved run of several concurrent claimers against one table: a
trace is a list of atomic conditional-update attempts `(claimer, row id)`
executed in order (the SQLite store serialises the updates; each claimer
issues one attempt per candidate row it selected).  Returns the final table
and the subsequence of successful attempts — attempt `(c, i)` succeeds when
its conditional update reports at least one affected row, in which case
claimer `c` includes row `i` in its claimed set. -/
def runTrace (ts : String) : List CalendarEvent → List (Nat × Nat) →
    List CalendarEvent × List (Nat × Nat)
  | db, [] => (db, [])
  | db, (c, i) :: rest =>
    let p := condClaim ts db i
    let q := runTrace ts p.1 rest
    (q.1, if p.2 > 0 then (c, i) :: q.2 else q.2)

theorem condClaim_pos_iff (ts : String) (db : List CalendarEvent) (i : Nat) :
    0 < (condClaim ts db i).2 ↔ ∃ e ∈ db, e.id = i ∧ e.status = "scheduled" := by
  unfold condClaim
  rw [List.length_pos_iff_exists_mem]
  constructor
  · rintro ⟨e, he⟩
    have := List.mem_filter.mp he
    exact ⟨e, this.1, by simpa using this.2⟩
  · rintro ⟨e, he, h1, h2⟩
    exact ⟨e, List.mem_filter.mpr ⟨he, by simp [h1, h2]⟩⟩

theorem condClaim_mem_of_ne (ts : String) {db : List CalendarEvent}
    {e : CalendarEvent} (he : e ∈ db) {i : Nat} (hne : e.id ≠ i) :
    e ∈ (condClaim ts db i).1 := by
  unfold condClaim
  refine List.mem_map.mpr ⟨e, he, ?_⟩
  rw [if_neg]
  tauto

theorem condClaim_mem_of_not_scheduled (ts : String) {db : List CalendarEvent}
    {e : CalendarEvent} (he : e ∈ db) {i : Nat} (hs : e.status ≠ "scheduled") :
    e ∈ (condClaim ts db i).1 := by
  unfold condClaim
  refine List.mem_map.mpr ⟨e, he, ?_⟩
  rw [if_neg]
  tauto

theorem condClaim_setRunning_mem (ts : String) {db : List CalendarEvent}
    {e : CalendarEvent} (he : e ∈ db) (hs : e.status = "scheduled") {i : Nat}
    (hid : e.id = i) : setRunning ts e ∈ (condClaim ts db i).1 := by
  unfold condClaim
  exact List.mem_map.mpr ⟨e, he, by rw [if_pos ⟨hid, hs⟩]⟩

theorem condClaim_no_scheduled (ts : String) (db : List CalendarEvent) (i : Nat) :
    ∀ e' ∈ (condClaim ts db i).1, e'.id = i → e'.status ≠ "scheduled" := by
  intro e' he' hid
  rcases List.mem_map.mp he' with ⟨e, _, heq⟩
  by_cases hcond : e.id = i ∧ e.status = "scheduled"
  · rw [if_pos hcond] at heq
    rw [← heq]
    simp [setRunning]
  · rw [if_neg hcond] at heq
    subst heq
    tauto

theorem condClaim_preserve_no_scheduled (ts : String) {db : List CalendarEvent}
    {i : Nat} (j : Nat) (h : ∀ e ∈ db, e.id = i → e.status ≠ "scheduled") :
    ∀ e' ∈ (condClaim ts db j).1, e'.id = i → e'.status ≠ "scheduled" := by
  intro e' he' hid
  rcases List.mem_map.mp he' with ⟨e, he, heq⟩
  by_cases hcond : e.id = j ∧ e.status = "scheduled"
  · rw [if_pos hcond] at heq
    rw [← heq]
    simp [setRunning]
  · rw [if_neg hcond] at heq
    subst heq
    exact h _ he hid

theorem condClaim_zero (ts : String) (db : List CalendarEvent) (i : Nat)
    (h : ∀ e ∈ db, e.id = i → e.status ≠ "scheduled") : (condClaim ts db i).2 = 0 := by
  by_contra hne
  rcases (condClaim_pos_iff ts db i).mp (Nat.pos_of_ne_zero hne) with ⟨e, he, h1, h2⟩
  exact h e he h1 h2

theorem runTrace_subset (ts : String) :
    ∀ (τ : List (Nat × Nat)) (db : List CalendarEvent),
    ∀ p ∈ (runTrace ts db τ).2, p ∈ τ := by
  intro τ
  induction τ with
  | nil => intro db p hp; simp [runTrace] at hp
  | cons q rest ih =>
    intro db p hp
    obtain ⟨c, i⟩ := q
    simp only [runTrace] at hp
    by_cases hpos : 0 < (condClaim ts db i).2
    · rw [if_pos hpos] at hp
      rcases List.mem_cons.mp hp with h | h
      · exact h ▸ List.mem_cons_self _ _
      · exact List.mem_cons_of_mem _ (ih _ p h)
    · rw [if_neg hpos] at hp
      exact List.mem_cons_of_mem _ (ih _ p hp)

theorem runTrace_not_mem (ts : String) :
    ∀ (τ : List (Nat × Nat)) (db : List CalendarEvent) (i : Nat),
    (∀ e ∈ db, e.id = i → e.status ≠ "scheduled") →
    i ∉ ((runTrace ts db τ).2.map (fun p => p.2)) := by
  intro τ
  induction τ with
  | nil => intro db i _ h; simp [runTrace] at h
  | cons q rest ih =>
    intro db i h
    obtain ⟨c, j⟩ := q
    simp only [runTrace]
    by_cases hj : j = i
    · subst hj
      rw [if_neg (by simp [condClaim_zero ts db j h])]
      exact ih _ j (condClaim_preserve_no_scheduled ts j h)
    · by_cases hpos : 0 < (condClaim ts db j).2
      · rw [if_pos hpos]
        intro hmem
        rcases List.mem_map.mp hmem with ⟨p, hp, hpi⟩
        rcases List.mem_cons.mp hp with rfl | hp'
        · exact hj hpi
        · exact ih _ i (condClaim_preserve_no_scheduled ts j h)
            (List.mem_map.mpr ⟨p, hp', hpi⟩)
      · rw [if_neg hpos]
        exact ih _ i (condClaim_preserve_no_scheduled ts j h)

theorem runTrace_nodup (ts : String) :
    ∀ (τ : List (Nat × Nat)) (db : List CalendarEvent),
    (((runTrace ts db τ).2).map (fun p => p.2)).Nodup := by
  intro τ
  induction τ with
  | nil => intro db; simp [runTrace]
  | cons q rest ih =>
    intro db
    obtain ⟨c, j⟩ := q
    simp only [runTrace]
    by_cases hpos : 0 < (condClaim ts db j).2
    · rw [if_pos hpos]
      simp only [List.map_cons, List.nodup_cons]
      exact ⟨runTrace_not_mem ts rest _ j (condClaim_no_scheduled ts db j), ih _⟩
    · rw [if_neg hpos]
      exact ih _

theorem runTrace_mem_of_scheduled (ts : String) :
    ∀ (τ : List (Nat × Nat)) (db : List CalendarEvent) (i : Nat),
    (∃ e ∈ db, e.id = i ∧ e.status = "scheduled") →
    (∃ c, (c, i) ∈ τ) →
    i ∈ ((runTrace ts db τ).2.map (fun p => p.2)) := by
  intro τ
  induction τ with
  | nil => rintro db i _ ⟨c, hc⟩; simp at hc
  | cons q rest ih =>
    rintro db i hex ⟨c, hc⟩
    obtain ⟨c', j⟩ := q
    simp only [runTrace]
    by_cases hj : j = i
    · subst hj
      rw [if_pos ((condClaim_pos_iff ts db j).mpr hex)]
      simp
    · rcases hex with ⟨e, he, hei, hes⟩
      have he' : e ∈ (condClaim ts db j).1 :=
        condClaim_mem_of_ne ts he (by rw [hei]; exact hj ∘ Eq.symm)
      have hc' : (c, i) ∈ rest := by
        rcases List.mem_cons.mp hc with heq | h
        · exact absurd (congrArg Prod.snd heq).symm hj
        · exact h
      have := ih _ i ⟨e, he', hei, hes⟩ ⟨c, hc'⟩
      by_cases hpos : 0 < (condClaim ts db j).2
      · rw [if_pos hpos]; simp only [List.map_cons]
        exact List.mem_cons_of_mem _ this
      · rw [if_neg hpos]; exact this

theorem claimLoop_outs_fst (ts : String) :
    ∀ (cands db : List CalendarEvent),
    ((claimLoop ts db cands).2).map Prod.fst = cands := by
  intro cands
  induction cands with
  | nil => intro db; simp [claimLoop]
  | cons e rest ih => intro db; simp [claimLoop, ih]

theorem claimLoop_preserve_not_scheduled (ts : String) :
    ∀ (cands db : List CalendarEvent) (r : CalendarEvent), r ∈ db →
    r.status ≠ "scheduled" → r ∈ (claimLoop ts db cands).1 := by
  intro cands
  induction cands with
  | nil => intro db r hr _; simpa [claimLoop] using hr
  | cons e rest ih =>
    intro db r hr hs
    simp only [claimLoop]
    exact ih _ r (condClaim_mem_of_not_scheduled ts hr hs) hs

theorem claimLoop_final_running (ts : String) :
    ∀ (cands db : List CalendarEvent) (r : CalendarEvent), r ∈ db →
    r.status = "scheduled" → (∃ e ∈ cands, e.id = r.id) →
    setRunning ts r ∈ (claimLoop ts db cands).1 := by
  intro cands
  induction cands with
  | nil => rintro db r _ _ ⟨e, he, _⟩; simp at he
  | cons e rest ih =>
    rintro db r hr hs ⟨e0, he0, hid⟩
    simp only [claimLoop]
    by_cases heid : e.id = r.id
    · have hmem : setRunning ts r ∈ (condClaim ts db e.id).1 :=
        condClaim_setRunning_mem ts hr hs heid.symm
      exact claimLoop_preserve_not_scheduled ts rest _ _ hmem (by simp [setRunning])
    · have hr' : r ∈ (condClaim ts db e.id).1 :=
        condClaim_mem_of_ne ts hr (fun hcontra => heid hcontra.symm)
      have hrest : ∃ x ∈ rest, x.id = r.id := by
        rcases List.mem_cons.mp he0 with rfl | h
        · exact absurd hid heid
        · exact ⟨e0, h, hid⟩
      exact ih _ r hr' hs hrest

theorem claimedOf_mem {outs : List (CalendarEvent × Nat)} {e' : CalendarEvent} :
    e' ∈ claimedOf outs ↔
      ∃ p ∈ outs, 0 < p.2 ∧ e' = { p.1 with status := "running" } := by
  unfold claimedOf
  rw [List.mem_filterMap]
  constructor
  · rintro ⟨p, hp, hf⟩
    by_cases h : 0 < p.2
    · rw [if_pos h] at hf; exact ⟨p, hp, h, (Option.some.inj hf).symm⟩
    · rw [if_neg h] at hf; cases hf
  · rintro ⟨p, hp, h, rfl⟩
    exact ⟨p, hp, by rw [if_pos h]⟩

theorem claimedOf_sublist (outs : List (CalendarEvent × Nat)) :
    List.Sublist (claimedOf outs) (outs.map (fun p => { p.1 with status := "running" })) := by
  induction outs with
  | nil => simp [claimedOf]
  | cons p rest ih =>
    by_cases hp : 0 < p.2
    · simpa [claimedOf, List.filterMap_cons, hp] using
        List.Sublist.cons₂ { p.1 with status := "running" } ih
    · simpa [claimedOf, List.filterMap_cons, hp] using
        List.Sublist.cons { p.1 with status := "running" } ih

theorem mem_selectDue {db : List CalendarEvent} {now : String} {e : CalendarEvent} :
    e ∈ selectDue db now ↔ e ∈ db ∧ IsDue now e := by
  unfold selectDue
  rw [(List.perm_insertionSort startLE _).mem_iff, List.mem_filter]
  simp

theorem selectDue_sorted (db : List CalendarEvent) (now : String) :
    (selectDue db now).Pairwise startLE :=
  List.sorted_insertionSort startLE _

/-- C1: claiming is exactly-once per row.  For any table whose due rows are
each attempted by at least one claimer (`hcover`), and where every attempt
targets a due row of the table (`hattempt`), any serialised interleaving
`τ` of the claimers' conditional updates yields: (a) each row id appears in
at most one successful attempt, so (b) if two claimers race on the same row
at most one includes it in its claimed set; (c) the union of all claimed
row ids is exactly the eligible (due) row ids; and (d) once no row with a
given id has status `'scheduled'` any further conditional update on that id
reports zero affected rows. -/
theorem claim_C1 (db : List CalendarEvent) (now ts : String) (τ : List (Nat × Nat))
    (hcover : ∀ e ∈ db, IsDue now e → ∃ c, (c, e.id) ∈ τ)
    (hattempt : ∀ p ∈ τ, ∃ e ∈ db, e.id = p.2 ∧ IsDue now e) :
    (((runTrace ts db τ).2).map (fun p => p.2)).Nodup ∧
    (∀ c c' i, (c, i) ∈ (runTrace ts db τ).2 → (c', i) ∈ (runTrace ts db τ).2 → c = c') ∧
    (∀ i, i ∈ ((runTrace ts db τ).2).map (fun p => p.2) ↔
       ∃ e ∈ db, e.id = i ∧ IsDue now e) ∧
    (∀ (dbx : List CalendarEvent) (i : Nat),
       (∀ e ∈ dbx, e.id = i → e.status ≠ "scheduled") → (condClaim ts dbx i).2 = 0) := by
  refine ⟨runTrace_nodup ts τ db, ?_, ?_, fun dbx i h => condClaim_zero ts dbx i h⟩
  · intro c c' i h1 h2
    have hnd := runTrace_nodup ts τ db
    have heq := List.inj_on_of_nodup_map hnd h1 h2 rfl
    exact congrArg Prod.fst heq
  · intro i
    constructor
    · intro hi
      rcases List.mem_map.mp hi with ⟨p, hp, rfl⟩
      exact hattempt p (runTrace_subset ts τ db p hp)
    · rintro ⟨e, he, rfl, hdue⟩
      exact runTrace_mem_of_scheduled ts τ db e.id ⟨e, he, rfl, hdue.1⟩ (hcover e he hdue)

/-- A concrete due row used to instantiate the claim theorems. -/
def evA : CalendarEvent :=
  { id := 1, agent_id := 7, title := "t1", prompt := "p1",
    start_time := "2024-01-01", end_time := none, target_user_id := 0,
    color := none, symbol := none, status := "scheduled", last_error := none,
    started_at := none, completed_at := none, created_at := "2023",
    updated_at := "2023" }

/-- A second concrete due row (with an end time) used to instantiate the
claim theorems. -/
def evB : CalendarEvent :=
  { id := 2, agent_id := 7, title := "t2", prompt := "p2",
    start_time := "2024-01-02", end_time := some "2024-12-31",
    target_user_id := 0, color := none, symbol := none,
    status := "scheduled", last_error := none, started_at := none,
    completed_at := none, created_at := "2023", updated_at := "2023" }

theorem claim_C1_witness :
    (((runTrace "TS" [evA, evB] [(0, 1), (1, 1), (1, 2)]).2).map (fun p => p.2)).Nodup ∧
    (∀ c c' i, (c, i) ∈ (runTrace "TS" [evA, evB] [(0, 1), (1, 1), (1, 2)]).2 →
       (c', i) ∈ (runTrace "TS" [evA, evB] [(0, 1), (1, 1), (1, 2)]).2 → c = c') ∧
    (∀ i, i ∈ ((runTrace "TS" [evA, evB] [(0, 1), (1, 1), (1, 2)]).2).map (fun p => p.2) ↔
       ∃ e ∈ [evA, evB], e.id = i ∧ IsDue "2024-01-02" e) ∧
    (∀ (dbx : List CalendarEvent) (i : Nat),
       (∀ e ∈ dbx, e.id = i → e.status ≠ "scheduled") → (condClaim "TS" dbx i).2 = 0) :=
  claim_C1 [evA, evB] "2024-01-02" "TS" [(0, 1), (1, 1), (1, 2)]
    (by
      intro e he _
      rcases List.mem_cons.mp he with rfl | he2
      · exact ⟨0, by decide⟩
      rcases List.mem_cons.mp he2 with rfl | he3
      · exact ⟨1, by decide⟩
      · simp at he3)
    (by decide)

/-- C2: properties of one `claimDueCalendarEvents` call.  (a) Every returned
event comes from a table row that, at SELECT time, was due (status
`'scheduled'`, `start_time ≤ now`, `end_time` NULL or `≥ now`), returned
with only its status overwritten to `'running'`; (b) the returned list is
ordered by `start_time` ascending; (c) each returned event's table row has
been updated to status `'running'` with `started_at` set; and (d) for any
run of the claim loop over candidates with distinct ids, a candidate whose
conditional update reported zero affected rows is excluded from the claimed
result. -/
theorem claim_C2 (db : List CalendarEvent) (now ts : String) :
    (∀ e' ∈ (claimDueCalendarEvents db now ts).2,
       ∃ e ∈ db, IsDue now e ∧ e' = { e with status := "running" }) ∧
    ((claimDueCalendarEvents db now ts).2).Pairwise startLE ∧
    (∀ e' ∈ (claimDueCalendarEvents db now ts).2,
       ∃ r ∈ (claimDueCalendarEvents db now ts).1,
         r.id = e'.id ∧ r.status = "running" ∧ r.started_at = some ts) ∧
    (∀ (dbx cands : List CalendarEvent), (cands.map (fun e => e.id)).Nodup →
       ∀ p ∈ (claimLoop ts dbx cands).2, p.2 = 0 →
       ∀ e' ∈ claimedOf ((claimLoop ts dbx cands).2), e'.id ≠ p.1.id) := by
  refine ⟨?_, ?_, ?_, ?_⟩
  · intro e' he'
    rcases claimedOf_mem.mp he' with ⟨p, hp, hpos, rfl⟩
    have hfst : p.1 ∈ selectDue db now := by
      have h := claimLoop_outs_fst ts (selectDue db now) db
      exact h ▸ List.mem_map_of_mem Prod.fst hp
    rcases mem_selectDue.mp hfst with ⟨hdb, hdue⟩
    exact ⟨p.1, hdb, hdue, rfl⟩
  · have hsub := claimedOf_sublist (claimLoop ts db (selectDue db now)).2
    have hmapeq : ((claimLoop ts db (selectDue db now)).2).map
        (fun p => { p.1 with status := "running" })
        = (selectDue db now).map (fun e => { e with status := "running" }) := by
      conv_rhs => rw [← claimLoop_outs_fst ts (selectDue db now) db]
      rw [List.map_map]
      rfl
    have hsorted : ((selectDue db now).map
        (fun e => { e with status := "running" })).Pairwise startLE := by
      rw [List.pairwise_map]
      exact (selectDue_sorted db now).imp (fun h => h)
    exact List.Pairwise.sublist (hmapeq ▸ hsub) hsorted
  · intro e' he'
    rcases claimedOf_mem.mp he' with ⟨p, hp, hpos, rfl⟩
    have hfst : p.1 ∈ selectDue db now := by
      have h := claimLoop_outs_fst ts (selectDue db now) db
      exact h ▸ List.mem_map_of_mem Prod.fst hp
    rcases mem_selectDue.mp hfst with ⟨hdb, hdue⟩
    refine ⟨setRunning ts p.1,
      claimLoop_final_running ts (selectDue db now) db p.1 hdb hdue.1 ⟨p.1, hfst, rfl⟩,
      by simp [setRunning], by simp [setRunning], by simp [setRunning]⟩
  · intro dbx cands hnodup p hp hp0 e' he' heq
    rcases claimedOf_mem.mp he' with ⟨q, hq, hqpos, rfl⟩
    have houts : (((claimLoop ts dbx cands).2).map (fun r => r.1.id)).Nodup := by
      have hcomp : ((claimLoop ts dbx cands).2).map (fun r => r.1.id)
          = cands.map (fun e => e.id) := by
        conv_rhs => rw [← claimLoop_outs_fst ts cands dbx]
        rw [List.map_map]
        rfl
      rw [hcomp]
      exact hnodup
    have hqid : q.1.id = p.1.id := by simpa using heq
    have : q = p := List.inj_on_of_nodup_map houts hq hp hqid
    subst this
    omega

theorem claimLoop_claimed_of_scheduled (ts : String) :
    ∀ (cands db : List CalendarEvent) (i : Nat),
    (∃ r ∈ db, r.id = i ∧ r.status = "scheduled") →
    (∃ e ∈ cands, e.id = i) →
    ∃ ev ∈ claimedOf ((claimLoop ts db cands).2), ev.id = i ∧ ev.status = "running" := by
  intro cands
  induction cands with
  | nil => rintro db i _ ⟨e, he, _⟩; simp at he
  | cons e rest ih =>
    rintro db i hex ⟨e0, he0, hid⟩
    simp only [claimLoop]
    by_cases hei : e.id = i
    · have hpos : 0 < (condClaim ts db e.id).2 := by
        rw [hei]
        exact (condClaim_pos_iff ts db i).mpr hex
      refine ⟨{ e with status := "running" }, ?_, ?_, rfl⟩
      · exact claimedOf_mem.mpr ⟨(e, (condClaim ts db e.id).2),
          List.mem_cons_self _ _, hpos, rfl⟩
      · exact hei
    · rcases hex with ⟨r, hr, hri, hrs⟩
      have hr' : r ∈ (condClaim ts db e.id).1 :=
        condClaim_mem_of_ne ts hr (by rw [hri]; exact fun hcontra => hei hcontra.symm)
      have hrest : ∃ x ∈ rest, x.id = i := by
        rcases List.mem_cons.mp he0 with rfl | h
        · exact absurd hid hei
        · exact ⟨e0, h, hid⟩
      rcases ih _ i ⟨r, hr', hri, hrs⟩ hrest with ⟨ev, hev, hevi, hevs⟩
      refine ⟨ev, ?_, hevi, hevs⟩
      rcases claimedOf_mem.mp hev with ⟨q, hq, hqpos, rfl⟩
      exact claimedOf_mem.mpr ⟨q, List.mem_cons_of_mem _ hq, hqpos, rfl⟩

/-- C9 (round-trip): insert a `CalendarEvent` with `createCalendarEvent`
(whose stored `end_time` is not in the past relative to its `start_time`),
then claim with `now` equal to that `start_time`: the new event is returned
by `claimDueCalendarEvents` with status transitioned `'scheduled' →
'running'`, and its table row now carries status `'running'` and a set
`started_at`. -/
theorem claim_C9 (db : List CalendarEvent) (e : NewCalendarEvent) (newId : Nat)
    (ts ts2 : String) (hend : endOk e.start_time (orNull e.end_time)) :
    (∃ ev ∈ (claimDueCalendarEvents (createCalendarEvent db e newId ts)
        e.start_time ts2).2, ev.id = newId ∧ ev.status = "running") ∧
    (∃ r ∈ (claimDueCalendarEvents (createCalendarEvent db e newId ts)
        e.start_time ts2).1, r.id = newId ∧ r.status = "running" ∧
        r.started_at = some ts2) := by
  set row : CalendarEvent :=
    { id := newId, agent_id := e.agent_id, title := e.title,
      prompt := e.prompt, start_time := e.start_time,
      end_time := orNull e.end_time, target_user_id := e.target_user_id,
      color := orNull e.color, symbol := orNull e.symbol,
      status := "scheduled", last_error := none, started_at := none,
      completed_at := none, created_at := ts, updated_at := ts } with hrow
  have hmem : row ∈ createCalendarEvent db e newId ts := by
    unfold createCalendarEvent
    rw [hrow]
    exact List.mem_append_right _ (List.mem_singleton.mpr rfl)
  have hdue : IsDue e.start_time row := ⟨rfl, lexLE_refl _, hend⟩
  have hsel : row ∈ selectDue (createCalendarEvent db e newId ts) e.start_time :=
    mem_selectDue.mpr ⟨hmem, hdue⟩
  constructor
  · rcases claimLoop_claimed_of_scheduled ts2
      (selectDue (createCalendarEvent db e newId ts) e.start_time)
      (createCalendarEvent db e newId ts) newId
      ⟨row, hmem, rfl, rfl⟩ ⟨row, hsel, rfl⟩ with ⟨ev, hev, hevi, hevs⟩
    exact ⟨ev, hev, hevi, hevs⟩
  · refine ⟨setRunning ts2 row,
      claimLoop_final_running ts2 _ _ row hmem rfl ⟨row, hsel, rfl⟩,
      by simp [setRunning, hrow], by simp [setRunning], by simp [setRunning]⟩

/-- Concrete `createCalendarEvent` input used to instantiate C9. -/
def newEvW : NewCalendarEvent :=
  { agent_id := 7, title := "t", prompt := "p", start_time := "2024-05-05",
    end_time := some "2024-06-01", target_user_id := 3, color := none,
    symbol := some "" }

theorem claim_C9_witness :
    (∃ ev ∈ (claimDueCalendarEvents (createCalendarEvent [evA] newEvW 9 "TS0")
        newEvW.start_time "TS1").2, ev.id = 9 ∧ ev.status = "running") ∧
    (∃ r ∈ (claimDueCalendarEvents (createCalendarEvent [evA] newEvW 9 "TS0")
        newEvW.start_time "TS1").1, r.id = 9 ∧ r.status = "running" ∧
        r.started_at = some "TS1") :=
  claim_C9 [evA] newEvW 9 "TS0" "TS1" (by decide)

/-! ### Chat orchestration (`telegram.ts`)

`handleTelegramUpdate`, `processAgentMessage` and `handleCallbackQuery` are
embedded as pure functions over an environment of oracles (the `db.ts` and
runtime calls whose sources are external: `getAgentByToken`, `isAllowed`,
`canSpend`, `getBudget`, `getCubicleStatus`, `getOperator`, `getAgentById`,
plus the outcome of the one `spawnAgent` call a run performs), a mutable
orchestrator state (the in-memory `pendingDelegations` map and the audit
log table), and a list of emitted side effects. -/

/-- A chat-history message (the `Message` interface). -/
structure Message where
  role : String
  content : String
deriving Repr, DecidableEq

/-- The argument of `spawnAgent` (the `AgentConfig` interface; `telegram.ts`
also passes `requireApproval` and `userId`). -/
structure AgentConfig where
  agentId : Int
  agentName : String
  agentRole : String
  dockerImage : String
  userMessage : String
  history : List Message
  maxTokens : Nat
  requireApproval : Bool
  userId : Int
deriving Repr, DecidableEq

/-- An agent row (the fields of the `agents` table used by telegram.ts). -/
structure Agent where
  id : Nat
  name : String
  role : String
  docker_image : String
  require_approval : Nat
deriving Repr, DecidableEq

/-- A budget row (the fields used by the `/budget` branch). -/
structure Budget where
  daily_limit_usd : ℚ
  current_spend_usd : ℚ
deriving Repr, DecidableEq

/-- The cubicle status returned by `getCubicleStatus`. -/
structure CubicleStatus where
  status : String
  containerId : Option String
deriving Repr, DecidableEq

/-- An audit-log row (the fields `handleCallbackQuery` touches). -/
structure AuditLogEntry where
  id : Int
  status : String
  approved_by : Option Int
deriving Repr, DecidableEq

/-- A `pendingDelegations` map entry (telegram.ts line 23). -/
structure Delegation where
  agentId : Nat
  role : String
  task : String
  timestamp : Nat
deriving Repr, DecidableEq

/-- The orchestrator's mutable state: the in-memory `pendingDelegations`
map (as an association list) and the audit-log table. -/
structure OrchState where
  delegations : List (String × Delegation)
  logs : List AuditLogEntry
deriving Repr, DecidableEq

/-- JS `Map.set`: insert or overwrite the binding for `k`. -/
def mapSet (m : List (String × Delegation)) (k : String) (v : Delegation) :
    List (String × Delegation) :=
  (k, v) :: m.filter (fun p => !(p.1 == k))

/-- JS `Map.delete`: remove the binding for `k`. -/
def mapDelete (m : List (String × Delegation)) (k : String) :
    List (String × Delegation) :=
  m.filter (fun p => !(p.1 == k))

/-- An observable side effect of the orchestration code: outbound chat
calls, container operations, the one `spawnAgent` invocation, and spend
recording.  `updateSpendE` carries the cost in hundred-thousandths of a
dollar — the source computes `result.output.length * 0.00001` dollars; the
embedding records the exact integer numerator instead of the JS float. -/
inductive Effect where
  | sendChatAction (chatId : Int) (action : String)
  | editMessage (chatId : Int) (messageId : Nat) (text : String)
  | sendMessage (chatId : Int) (text : String)
  | spawnAgentE (cfg : AgentConfig)
  | updateSpendE (agentId : Nat) (costUnits : Nat)
  | removeCubicleE (containerId : String)
  | execTouch (containerId : String) (path : String)
  | sendDelegationE (operatorChatId : Int) (approveData denyData : String)
deriving Repr, DecidableEq

/-- The environment of external calls made by the handlers: `db.ts` lookups
(whose source is not provided), the container-runtime helpers from the
unprovided part of docker.ts, and the outcome of the run's `spawnAgent`
call (`Except.error` models a thrown error, caught by the handlers). -/
structure TgEnv where
  agentByToken : Option Agent
  allowed : Int → Bool
  canSpend : Nat → Bool
  cubicleStatus : Option CubicleStatus
  budget : Option Budget
  operator : Option Int
  agentById : Int → Option Agent
  spawnResult : Except String SpawnResult
  execOk : Bool
  nowMs : Nat

/-- An inbound Telegram update: a text message, a button-callback, or
neither (`update.message` absent). -/
inductive TgUpdate where
  | message (fromId : Int) (username firstName : Option String)
      (text : String) (chatId : Int)
  | callback (cbId : String) (fromId : Int) (data : String)
      (chatId : Int) (messageId : Nat)
  | empty

/-- Generic single-character splitter (JS `str.split(c)`); `splitLines` is
the newline instance used by docker.ts, this one also serves the `':'`
splitting of callback data. -/
def splitChar (sep : Char) (l : List Char) : List (List Char) :=
  l.foldr
    (fun c acc =>
      if c = sep then [] :: acc
      else
        match acc with
        | [] => [[c]]
        | a :: rest => (c :: a) :: rest)
    [[]]

/-- JS `parseInt(s, 10)`: skip leading whitespace, optional sign, then the
maximal run of decimal digits; `none` models `NaN`. -/
def jsParseInt10 (s : String) : Option Int :=
  let l := s.data.dropWhile Char.isWhitespace
  let signAndRest : Int × List Char :=
    match l with
    | '-' :: rest => (-1, rest)
    | '+' :: rest => (1, rest)
    | _ => (1, l)
  let ds := signAndRest.2.takeWhile Char.isDigit
  if ds.isEmpty then none
  else some (signAndRest.1 * (ds.foldl (fun acc c => acc * 10 + (c.toNat - 48)) 0 : Nat))

/-- Does the second list start with the first? -/
def leadsWith : List Char → List Char → Bool
  | [], _ => true
  | _ :: _, [] => false
  | p :: ps, c :: cs => p == c && leadsWith ps cs

/-- Does `l` contain `pat` as a contiguous sublist? -/
def hasSub : List Char → List Char → Bool
  | pat, [] => pat.isEmpty
  | pat, c :: cs => leadsWith pat (c :: cs) || hasSub pat cs

/-- JS `s.includes(pat)`. -/
def jsIncludes (s pat : String) : Bool := hasSub pat.data s.data

/-- The characters a JS regex `.` does not match (line terminators). -/
def notLineTerm (c : Char) : Bool :=
  !(c == '\n') && !(c == '\r') && !(c == Char.ofNat 0x2028) && !(c == Char.ofNat 0x2029)

/-- The characters after the first occurrence of `pat` in `l` (`none` when
`pat` does not occur). -/
def afterFirst : List Char → List Char → Option (List Char)
  | pat, [] => if pat.isEmpty then some [] else none
  | pat, c :: cs =>
    if leadsWith pat (c :: cs) then some ((c :: cs).drop pat.length)
    else afterFirst pat cs

/-- JS `s.match(/TAG\s*(.+)/)?.[1]` for a literal `TAG`: find the first
occurrence of the tag; the greedy `\s*` then swallows the following
whitespace and `(.+)` captures up to the next line terminator.  When
everything after the tag is whitespace, the regex backtracks: `(.+)` can
still match a single non-line-terminator whitespace character (the last
one), else there is no match. -/
def jsCaptureAfter (tag s : String) : Option String :=
  match afterFirst tag.data s.data with
  | none => none
  | some rest =>
    let r2 := rest.dropWhile Char.isWhitespace
    if !r2.isEmpty then some (String.mk (r2.takeWhile notLineTerm))
    else
      match (rest.filter notLineTerm).getLast? with
      | some c => some (String.mk [c])
      | none => none

/-- The delegation-intent test of `processAgentMessage` (telegram.ts lines
205-211): the output must contain the `[MEETING]` marker and the
`TARGET_ROLE:` tag, and both the target-role and task regexes must match. -/
def delegationSignal (output : String) : Option (String × String) :=
  if jsIncludes output "[MEETING]" && jsIncludes output "TARGET_ROLE:" then
    match jsCaptureAfter "TARGET_ROLE:" output, jsCaptureAfter "TASK:" output with
    | some rm, some tm => some (rm, tm)
    | _, _ => none
  else none

/-- The notice `processAgentMessage` returns instead of the raw output when
a delegation request was created. -/
def delegationNotice (targetRole task : String) : String :=
  "📋 Delegation request sent to operator for approval.\nTarget Role: *" ++
    targetRole ++ "*\nTask: " ++ String.mk (task.data.take 100) ++ "..."

/-- `sendDelegationRequest` (telegram.ts lines 240-273): notify the
operator with approve/deny buttons; with no operator configured it only
logs and sends nothing. -/
def sendDelegationRequest (env : TgEnv) (agentId : Nat) (delegationId : String) :
    List Effect :=
  match env.operator with
  | none => []
  | some op =>
    [Effect.sendDelegationE op
      ("delegate_approve:" ++ delegationId ++ ":" ++ toString agentId)
      ("delegate_deny:" ++ delegationId ++ ":" ++ toString agentId)]

/-- The result of `processAgentMessage`. -/
structure ProcResult where
  output : String
  messageId : Option Nat
deriving Repr, DecidableEq

/-- `processAgentMessage` (telegram.ts lines 165-238).  The
`getActiveMeetings`/`meetingContext` computation of lines 183-186 is dead
(its result is never used) and is omitted.  A thrown `spawnAgent` error is
modelled by `env.spawnResult = .error msg` and hits the `catch`. -/
def processAgentMessage (env : TgEnv) (st : OrchState) (chatId userId : Int)
    (text : String) (statusMessageId : Option Nat) :
    ProcResult × OrchState × List Effect :=
  match env.agentByToken with
  | none => ({ output := "Agent not found.", messageId := none }, st, [])
  | some agent =>
    let effs1 := [Effect.sendChatAction chatId "typing"] ++
      (match statusMessageId with
       | some mid => [Effect.editMessage chatId mid
           ("🔄 *" ++ agent.name ++ "* is waking up...")]
       | none => [])
    let effs2 := effs1 ++
      (match statusMessageId with
       | some mid => [Effect.editMessage chatId mid
           ("🔄 *" ++ agent.name ++ "* is thinking...")]
       | none => [])
    let cfg : AgentConfig :=
      { agentId := (agent.id : Int), agentName := agent.name,
        agentRole := agent.role, dockerImage := agent.docker_image,
        userMessage := text, history := [], maxTokens := 1000,
        requireApproval := agent.require_approval == 1, userId := userId }
    let effs3 := effs2 ++ [Effect.spawnAgentE cfg]
    match env.spawnResult with
    | Except.error msg =>
      ({ output := "Error: " ++ msg, messageId := statusMessageId }, st, effs3)
    | Except.ok result =>
      match delegationSignal result.output with
      | some (rm, tm) =>
        let targetRole := String.mk (trimChars rm.data)
        let task := String.mk (trimChars tm.data)
        let delegationId := toString agent.id ++ "_" ++ toString env.nowMs
        let entry : Delegation :=
          { agentId := agent.id, role := targetRole, task := task,
            timestamp := env.nowMs }
        let st' := { st with delegations := mapSet st.delegations delegationId entry }
        ({ output := delegationNotice targetRole task,
           messageId := statusMessageId }, st',
         effs3 ++ sendDelegationRequest env agent.id delegationId)
      | none =>
        ({ output := result.output, messageId := statusMessageId }, st,
         effs3 ++ [Effect.updateSpendE agent.id result.output.length])

/-- Modelled from the spec: `updateAuditLog` lives in `shell/src/db.ts`,
which is not among the provided sources.  Spec section 4.2: "Every
resolution updates the corresponding AuditLogEntry's `status` and
`approvedBy` exactly once; a resolution for an unknown/already-resolved id
is a no-op, reported but not fatal" — so the update applies only to the
entry with the given id while it is still `pending`. -/
def updateAuditLog (logs : List AuditLogEntry) (logId : Int) (status : String)
    (byId : Int) : List AuditLogEntry :=
  logs.map (fun e =>
    if e.id = logId ∧ e.status = "pending"
    then { e with status := status, approved_by := some byId } else e)

/-- Decimal fixed-point formatting standing in for JS `Number.toFixed`
(exact decimal round-half-up; the binary-float artifacts of the source are
abstracted away — only the untested `/budget` reply text uses this). -/
def fmtFixed (q : ℚ) (d : Nat) : String :=
  let n : Nat := (Int.floor (|q| * ((10 : ℚ) ^ d) + 1 / 2)).toNat
  let ip := n / 10 ^ d
  let fp := n % 10 ^ d
  let fs := toString fp
  let fs := String.mk (List.replicate (d - fs.length) '0') ++ fs
  (if q < 0 then "-" else "") ++ toString ip ++ "." ++ fs

/-- `handleCallbackQuery` (telegram.ts lines 275-371): resolve delegation
approvals/denials and command approvals/denials signalled by inline-button
callback data of the form `action:id:extra`. -/
def handleCallbackQuery (env : TgEnv) (st : OrchState) (fromId : Int)
    (data : String) (chatId : Int) (messageId : Nat) :
    Option String × OrchState × List Effect :=
  let parts := (splitChar ':' data.data).map String.mk
  let action := parts.getD 0 ""
  if action == "delegate_approve" || action == "delegate_deny" then
    let delegationId := parts.getD 1 ""
    let agentId? := jsParseInt10 (parts.getD 2 "")
    match st.delegations.lookup delegationId with
    | none =>
      (none, st, [Effect.editMessage chatId messageId
        "❌ Delegation request expired or not found."])
    | some delegation =>
      if action == "delegate_approve" then
        let effs0 := [Effect.editMessage chatId messageId
          ("✅ *Delegation Approved!*\n\nSpawning sub-agent for: " ++
            delegation.role ++ "...")]
        let agent? := match agentId? with
          | some aid => env.agentById aid
          | none => none
        let effs1 := effs0 ++
          (match agent? with
           | some agent =>
             let cfg : AgentConfig :=
               { agentId := (agentId?.getD 0), agentName := delegation.role,
                 agentRole := delegation.role, dockerImage := agent.docker_image,
                 userMessage := delegation.task, history := [],
                 maxTokens := 1000, requireApproval := false, userId := fromId }
             [Effect.spawnAgentE cfg] ++
               (match env.spawnResult with
                | Except.ok r =>
                  [Effect.sendMessage chatId
                    ("🤝 Sub-agent completed:\n\n" ++ String.mk (r.output.data.take 3000))]
                | Except.error msg =>
                  [Effect.sendMessage chatId ("❌ Delegation failed: " ++ msg)])
           | none => [])
        (none, { st with delegations := mapDelete st.delegations delegationId }, effs1)
      else
        (none, { st with delegations := mapDelete st.delegations delegationId },
         [Effect.editMessage chatId messageId
           "❌ *Delegation Denied.* No sub-agent will be spawned."])
  else
    let logIdStr := parts.getD 1 ""
    let containerId := parts.getD 2 ""
    let logId? := jsParseInt10 logIdStr
    if action == "approve" || action == "deny" then
      let status := if action == "approve" then "approved" else "denied"
      let logs' := match logId? with
        | some n => updateAuditLog st.logs n status fromId
        | none => st.logs
      let st' := { st with logs := logs' }
      if action == "approve" && !(containerId == "") then
        if env.execOk then
          (none, st', [Effect.execTouch containerId "/tmp/hermit_approval.lock",
            Effect.editMessage chatId messageId "✅ *Approved!* Command execution started."])
        else
          (none, st', [Effect.editMessage chatId messageId
            "❌ Approval applied but container may not have received it."])
      else
        let effs0 := [Effect.editMessage chatId messageId
          "❌ *Denied.* Command will not be executed."]
        if !(containerId == "") then
          (if env.execOk then
            (none, st', effs0 ++ [Effect.execTouch containerId "/tmp/hermit_deny.lock"])
          else (none, st', effs0))
        else (none, st', effs0)
    else
      (none, st, [])

/-- `handleTelegramUpdate` (telegram.ts lines 101-163): dispatch callbacks,
enforce the allow-list, enforce the budget, and serve the `/status`,
`/reset` and `/budget` commands.  (For any other text the source logs and
returns `null`; the separate `processAgentMessage` entry point performs the
actual run.) -/
def handleTelegramUpdate (env : TgEnv) (st : OrchState) (u : TgUpdate) :
    Option String × OrchState × List Effect :=
  match u with
  | .callback _ fromId data chatId messageId =>
    handleCallbackQuery env st fromId data chatId messageId
  | .empty =>
    (none, st, [])
  | .message fromId _ _ text _chatId =>
    match env.agentByToken with
    | none => (none, st, [])
    | some agent =>
      if !(env.allowed fromId) then
        (some ("Unauthorized access. Your Telegram User ID is: " ++ toString fromId ++
          "\n\nPlease provide this ID to the administrator to get access."), st, [])
      else if !(env.canSpend agent.id) then
        (some ("❌ Budget exceeded for " ++ agent.name ++ ". Please try again tomorrow."),
         st, [])
      else if text == "/status" then
        match env.cubicleStatus with
        | none => (some ("📊 No active cubicle for " ++ agent.name ++ "."), st, [])
        | some status =>
          let cidText := match status.containerId with
            | some cid => if cid == "" then "N/A" else String.mk (cid.data.take 12)
            | none => "N/A"
          (some ("📊 Cubicle Status: *" ++ status.status ++ "*\nContainer: `" ++
            cidText ++ "`"), st, [])
      else if text == "/reset" then
        let cid? := match env.cubicleStatus with
          | some s =>
            (match s.containerId with
             | some cid => if cid == "" then none else some cid
             | none => none)
          | none => none
        match cid? with
        | some cid =>
          (some "🔄 Cubicle reset. A fresh container will be created on your next message.",
           st, [Effect.removeCubicleE cid])
        | none => (some "📊 No cubicle to reset.", st, [])
      else if text == "/budget" then
        match env.budget with
        | some b =>
          (some ("💰 Budget for " ++ agent.name ++ ":\nLimit: $" ++
            fmtFixed b.daily_limit_usd 2 ++ "/day\nSpent: $" ++
            fmtFixed b.current_spend_usd 4), st, [])
        | none => (some "Budget info not available.", st, [])
      else
        (none, st, [])

/-- C5: an inbound chat message from an allow-listed sender whose agent
fails the budget check is answered with the user-visible budget-exceeded
denial; no sandbox is created (`spawnAgent` is never invoked for that
message), no spend is recorded, and the orchestrator state is untouched —
the denial short-circuits before any environment exists. -/
theorem claim_C5 (env : TgEnv) (st : OrchState) (fromId : Int)
    (username firstName : Option String) (text : String) (chatId : Int)
    (agent : Agent) (hag : env.agentByToken = some agent)
    (hallow : env.allowed fromId = true) (hspend : env.canSpend agent.id = false) :
    (handleTelegramUpdate env st (.message fromId username firstName text chatId)).1
      = some ("❌ Budget exceeded for " ++ agent.name ++ ". Please try again tomorrow.") ∧
    (∀ cfg, Effect.spawnAgentE cfg ∉
      (handleTelegramUpdate env st (.message fromId username firstName text chatId)).2.2) ∧
    (∀ aid amt, Effect.updateSpendE aid amt ∉
      (handleTelegramUpdate env st (.message fromId username firstName text chatId)).2.2) ∧
    (handleTelegramUpdate env st (.message fromId username firstName text chatId)).2.1 = st := by
  simp [handleTelegramUpdate, hag, hallow, hspend]

/-- Concrete agent used to instantiate the orchestration claims. -/
def agW : Agent :=
  { id := 3, name := "Athena", role := "dev", docker_image := "img",
    require_approval := 0 }

/-- Environment of the C5 witness: allow-listed sender, `canSpend` false. -/
def envW5 : TgEnv :=
  { agentByToken := some agW, allowed := fun _ => true,
    canSpend := fun _ => false, cubicleStatus := none, budget := none,
    operator := none, agentById := fun _ => none,
    spawnResult := Except.error "down", execOk := false, nowMs := 0 }

theorem claim_C5_witness :
    (handleTelegramUpdate envW5 ⟨[], []⟩ (.message 42 none none "hello" 100)).1
      = some ("❌ Budget exceeded for " ++ agW.name ++ ". Please try again tomorrow.") ∧
    (∀ cfg, Effect.spawnAgentE cfg ∉
      (handleTelegramUpdate envW5 ⟨[], []⟩ (.message 42 none none "hello" 100)).2.2) ∧
    (∀ aid amt, Effect.updateSpendE aid amt ∉
      (handleTelegramUpdate envW5 ⟨[], []⟩ (.message 42 none none "hello" 100)).2.2) ∧
    (handleTelegramUpdate envW5 ⟨[], []⟩ (.message 42 none none "hello" 100)).2.1 = ⟨[], []⟩ :=
  claim_C5 envW5 ⟨[], []⟩ 42 none none "hello" 100 agW rfl rfl rfl

/-- C7: for a chat-triggered run whose sandbox output signals a delegation
intent (the `[MEETING]` marker plus matching target-role and task lines),
`processAgentMessage` stores a pending `DelegationRequest` under the fresh
delegation id, notifies the operator with matching approve/deny callback
data, and returns the delegation notice instead of the raw output, without
recording any spend; for a run whose output does not signal delegation,
spend is recorded and the raw output is returned. -/
theorem claim_C7 (env : TgEnv) (st : OrchState) (chatId userId : Int)
    (text : String) (statusMessageId : Option Nat) (agent : Agent)
    (r : SpawnResult) (opId : Int)
    (hag : env.agentByToken = some agent) (hspawn : env.spawnResult = Except.ok r)
    (hop : env.operator = some opId) :
    (∀ rm tm, delegationSignal r.output = some (rm, tm) →
      ((processAgentMessage env st chatId userId text statusMessageId).2.1).delegations.lookup
          (toString agent.id ++ "_" ++ toString env.nowMs)
        = some { agentId := agent.id, role := String.mk (trimChars rm.data),
                 task := String.mk (trimChars tm.data), timestamp := env.nowMs } ∧
      Effect.sendDelegationE opId
          ("delegate_approve:" ++ (toString agent.id ++ "_" ++ toString env.nowMs) ++
            ":" ++ toString agent.id)
          ("delegate_deny:" ++ (toString agent.id ++ "_" ++ toString env.nowMs) ++
            ":" ++ toString agent.id)
        ∈ (processAgentMessage env st chatId userId text statusMessageId).2.2 ∧
      (processAgentMessage env st chatId userId text statusMessageId).1.output
        = delegationNotice (String.mk (trimChars rm.data)) (String.mk (trimChars tm.data)) ∧
      (∀ aid amt, Effect.updateSpendE aid amt ∉
        (processAgentMessage env st chatId userId text statusMessageId).2.2)) ∧
    (delegationSignal r.output = none →
      (processAgentMessage env st chatId userId text statusMessageId).1.output = r.output ∧
      Effect.updateSpendE agent.id r.output.length ∈
        (processAgentMessage env st chatId userId text statusMessageId).2.2) := by
  constructor
  · intro rm tm hsig
    refine ⟨?_, ?_, ?_, ?_⟩ <;>
      rcases statusMessageId with _ | mid <;>
        simp [processAgentMessage, hag, hspawn, hsig, hop, sendDelegationRequest,
          mapSet, List.lookup, delegationNotice]
  · intro hsig
    constructor <;>
      rcases statusMessageId with _ | mid <;>
        simp [processAgentMessage, hag, hspawn, hsig]

/-- Agent used to instantiate C7. -/
def agW7 : Agent :=
  { id := 4, name := "B", role := "r", docker_image := "di",
    require_approval := 1 }

/-- A sandbox output that signals a delegation intent. -/
def outW7 : String := "[MEETING]\nTARGET_ROLE: helper\nTASK: do things"

/-- Environment of the C7 witness. -/
def envW7 : TgEnv :=
  { agentByToken := some agW7, allowed := fun _ => true,
    canSpend := fun _ => true, cubicleStatus := none, budget := none,
    operator := some 99, agentById := fun _ => none,
    spawnResult := Except.ok ⟨"c1", outW7⟩, execOk := true, nowMs := 555 }

theorem claim_C7_witness :
    ((processAgentMessage envW7 ⟨[], []⟩ 10 20 "msg" none).2.1).delegations.lookup "4_555"
      = some { agentId := 4, role := "helper", task := "do things", timestamp := 555 } ∧
    Effect.sendDelegationE 99 "delegate_approve:4_555:4" "delegate_deny:4_555:4"
      ∈ (processAgentMessage envW7 ⟨[], []⟩ 10 20 "msg" none).2.2 ∧
    (processAgentMessage envW7 ⟨[], []⟩ 10 20 "msg" none).1.output
      = delegationNotice "helper" "do things" ∧
    (∀ aid amt, Effect.updateSpendE aid amt ∉
      (processAgentMessage envW7 ⟨[], []⟩ 10 20 "msg" none).2.2) :=
  (claim_C7 envW7 ⟨[], []⟩ 10 20 "msg" none agW7 ⟨"c1", outW7⟩ 99 rfl rfl rfl).1
    "helper" "do things" (by decide)

theorem lookup_mapDelete (m : List (String × Delegation)) (k : String) :
    (mapDelete m k).lookup k = none := by
  induction m with
  | nil => rfl
  | cons p rest ih =>
    obtain ⟨k', v⟩ := p
    by_cases h : k' = k
    · subst h
      simpa [mapDelete, List.filter_cons] using ih
    · have h1 : (k' == k) = false := beq_eq_false_iff_ne.mpr h
      have h2 : (k == k') = false := beq_eq_false_iff_ne.mpr (Ne.symm h)
      simp only [mapDelete, List.filter_cons] at ih ⊢
      simp [h1, h2, List.lookup, ih]

/-- Is the effect the `spawnAgent` invocation? -/
def isSpawnEffect : Effect → Bool
  | .spawnAgentE _ => true
  | _ => false

/-- C8: resolving a pending delegation request.  On approval (with the
request pending, the agent id resolvable, and the spawned run succeeding)
exactly one sandbox run is spawned, its configuration carries the delegated
role and task, its output is relayed back, and the `DelegationRequest` is
deleted from the in-memory map; on denial no `spawnAgent` effect occurs at
all and the request is likewise deleted. -/
theorem claim_C8 (env : TgEnv) (st : OrchState) (fromId chatId : Int)
    (messageId : Nat) (did aidStr dataA dataD : String) (d : Delegation)
    (aid : Int) (agent : Agent) (r : SpawnResult)
    (hlook : st.delegations.lookup did = some d)
    (hA : (splitChar ':' dataA.data).map String.mk = ["delegate_approve", did, aidStr])
    (hD : (splitChar ':' dataD.data).map String.mk = ["delegate_deny", did, aidStr])
    (hparse : jsParseInt10 aidStr = some aid)
    (hagent : env.agentById aid = some agent)
    (hspawn : env.spawnResult = Except.ok r) :
    (((handleCallbackQuery env st fromId dataA chatId messageId).2.2).filter
      isSpawnEffect).length = 1 ∧
    Effect.spawnAgentE
        { agentId := aid, agentName := d.role, agentRole := d.role,
          dockerImage := agent.docker_image, userMessage := d.task,
          history := [], maxTokens := 1000, requireApproval := false,
          userId := fromId }
      ∈ (handleCallbackQuery env st fromId dataA chatId messageId).2.2 ∧
    Effect.sendMessage chatId
        ("🤝 Sub-agent completed:\n\n" ++ String.mk (r.output.data.take 3000))
      ∈ (handleCallbackQuery env st fromId dataA chatId messageId).2.2 ∧
    ((handleCallbackQuery env st fromId dataA chatId messageId).2.1).delegations.lookup did
      = none ∧
    (∀ cfg, Effect.spawnAgentE cfg ∉
      (handleCallbackQuery env st fromId dataD chatId messageId).2.2) ∧
    ((handleCallbackQuery env st fromId dataD chatId messageId).2.1).delegations.lookup did
      = none := by
  refine ⟨?_, ?_, ?_, ?_, ?_, ?_⟩ <;>
    simp [handleCallbackQuery, hA, hD, hlook, hparse, hagent, hspawn,
      lookup_mapDelete, isSpawnEffect]

/-- Pending delegation used to instantiate C8. -/
def delW : Delegation :=
  { agentId := 4, role := "helper", task := "do things", timestamp := 1 }

/-- Agent resolved by id 6 in the C8 witness environment. -/
def agW8 : Agent :=
  { id := 6, name := "C", role := "x", docker_image := "img8",
    require_approval := 0 }

/-- Environment of the C8 witness. -/
def envW8 : TgEnv :=
  { agentByToken := none, allowed := fun _ => true, canSpend := fun _ => true,
    cubicleStatus := none, budget := none, operator := none,
    agentById := fun i => if i == 6 then some agW8 else none,
    spawnResult := Except.ok ⟨"c8", "done"⟩, execOk := true, nowMs := 0 }

theorem claim_C8_witness :
    (((handleCallbackQuery envW8 ⟨[("4_1", delW)], []⟩ 77 "delegate_approve:4_1:6" 5 9).2.2).filter
      isSpawnEffect).length = 1 ∧
    Effect.spawnAgentE
        { agentId := 6, agentName := delW.role, agentRole := delW.role,
          dockerImage := agW8.docker_image, userMessage := delW.task,
          history := [], maxTokens := 1000, requireApproval := false,
          userId := 77 }
      ∈ (handleCallbackQuery envW8 ⟨[("4_1", delW)], []⟩ 77 "delegate_approve:4_1:6" 5 9).2.2 ∧
    Effect.sendMessage 5 ("🤝 Sub-agent completed:\n\n" ++ String.mk ("done".data.take 3000))
      ∈ (handleCallbackQuery envW8 ⟨[("4_1", delW)], []⟩ 77 "delegate_approve:4_1:6" 5 9).2.2 ∧
    ((handleCallbackQuery envW8 ⟨[("4_1", delW)], []⟩ 77 "delegate_approve:4_1:6" 5 9).2.1).delegations.lookup "4_1"
      = none ∧
    (∀ cfg, Effect.spawnAgentE cfg ∉
      (handleCallbackQuery envW8 ⟨[("4_1", delW)], []⟩ 77 "delegate_deny:4_1:6" 5 9).2.2) ∧
    ((handleCallbackQuery envW8 ⟨[("4_1", delW)], []⟩ 77 "delegate_deny:4_1:6" 5 9).2.1).delegations.lookup "4_1"
      = none :=
  claim_C8 envW8 ⟨[("4_1", delW)], []⟩ 77 5 9 "4_1" "6"
    "delegate_approve:4_1:6" "delegate_deny:4_1:6" delW 6 agW8 ⟨"c8", "done"⟩
    (by decide) (by decide) (by decide) (by decide) rfl rfl

/-- C6: approval-callback resolution carrying an audit-log id.  A pending
entry with that id is transitioned to `approved`/`denied` with the
resolver's identity recorded; the (spec-modelled, `db.ts`) `updateAuditLog`
is a no-op for an unknown or already-resolved id and a second resolution of
the same entry changes nothing, so the transition happens exactly once; on
approve exactly one approval sentinel (`/tmp/hermit_approval.lock`) is
written into the target container and no deny sentinel; on deny exactly one
deny sentinel (`/tmp/hermit_deny.lock`) and no approval sentinel. -/
theorem claim_C6 (env : TgEnv) (st : OrchState) (fromId chatId : Int)
    (messageId : Nat) (logId : Int) (sA sD cid dataA dataD : String)
    (hA : (splitChar ':' dataA.data).map String.mk = ["approve", sA, cid])
    (hD : (splitChar ':' dataD.data).map String.mk = ["deny", sD, cid])
    (hpA : jsParseInt10 sA = some logId)
    (hpD : jsParseInt10 sD = some logId)
    (hcid : ¬ cid = "")
    (hexec : env.execOk = true) :
    (∀ e ∈ st.logs, e.id = logId → e.status = "pending" →
      { e with status := "approved", approved_by := some fromId }
        ∈ ((handleCallbackQuery env st fromId dataA chatId messageId).2.1).logs) ∧
    (((handleCallbackQuery env st fromId dataA chatId messageId).2.2).filter
      (fun eff => eff == Effect.execTouch cid "/tmp/hermit_approval.lock")).length = 1 ∧
    Effect.execTouch cid "/tmp/hermit_deny.lock" ∉
      (handleCallbackQuery env st fromId dataA chatId messageId).2.2 ∧
    (∀ e ∈ st.logs, e.id = logId → e.status = "pending" →
      { e with status := "denied", approved_by := some fromId }
        ∈ ((handleCallbackQuery env st fromId dataD chatId messageId).2.1).logs) ∧
    (((handleCallbackQuery env st fromId dataD chatId messageId).2.2).filter
      (fun eff => eff == Effect.execTouch cid "/tmp/hermit_deny.lock")).length = 1 ∧
    Effect.execTouch cid "/tmp/hermit_approval.lock" ∉
      (handleCallbackQuery env st fromId dataD chatId messageId).2.2 ∧
    (∀ (logs : List AuditLogEntry) (i : Int) (stt : String) (b : Int),
      (∀ e ∈ logs, e.id = i → e.status ≠ "pending") →
      updateAuditLog logs i stt b = logs) ∧
    (∀ (logs : List AuditLogEntry) (i : Int) (s1 : String) (b1 : Int)
       (s2 : String) (b2 : Int), s1 ≠ "pending" →
      updateAuditLog (updateAuditLog logs i s1 b1) i s2 b2
        = updateAuditLog logs i s1 b1) := by
  have hcidb : (cid == "") = false := beq_eq_false_iff_ne.mpr hcid
  refine ⟨?_, ?_, ?_, ?_, ?_, ?_, ?_, ?_⟩
  · intro e he hid hpend
    simp only [handleCallbackQuery, hA, hpA, hcidb, hexec]
    simp only [List.getD_cons_zero, List.getD_cons_succ]
    simp [hcid, hpA, updateAuditLog]
    exact ⟨e, he, by rw [if_pos ⟨hid, hpend⟩]⟩
  · simp [handleCallbackQuery, hA, hpA, hcidb, hexec]
  · simp [handleCallbackQuery, hA, hpA, hcidb, hexec]
  · intro e he hid hpend
    simp only [handleCallbackQuery, hD, hpD, hcidb, hexec]
    simp only [List.getD_cons_zero, List.getD_cons_succ]
    simp [hcid, hpD, updateAuditLog]
    exact ⟨e, he, by rw [if_pos ⟨hid, hpend⟩]⟩
  · simp [handleCallbackQuery, hD, hpD, hcidb, hexec]
  · simp [handleCallbackQuery, hD, hpD, hcidb, hexec]
  · intro logs i stt b h
    unfold updateAuditLog
    have : logs.map (fun e =>
        if e.id = i ∧ e.status = "pending"
        then { e with status := stt, approved_by := some b } else e)
        = logs.map id := by
      apply List.map_congr_left
      intro e he
      rw [if_neg]
      · rfl
      · rintro ⟨h1, h2⟩
        exact h e he h1 h2
    simpa using this
  · intro logs i s1 b1 s2 b2 hs1
    unfold updateAuditLog
    rw [List.map_map]
    apply List.map_congr_left
    intro e _
    by_cases hc : e.id = i ∧ e.status = "pending"
    · simp only [Function.comp_apply, if_pos hc]
      rw [if_neg]
      rintro ⟨_, h2⟩
      exact hs1 h2
    · simp only [Function.comp_apply, if_neg hc]

/-- A pending audit-log entry used to instantiate C6. -/
def logW : AuditLogEntry := { id := 5, status := "pending", approved_by := none }

theorem claim_C6_witness :
    (∀ e ∈ [logW], e.id = 5 → e.status = "pending" →
      { e with status := "approved", approved_by := some (77 : Int) }
        ∈ ((handleCallbackQuery envW8 ⟨[], [logW]⟩ 77 "approve:5:abc" 8 9).2.1).logs) ∧
    (((handleCallbackQuery envW8 ⟨[], [logW]⟩ 77 "approve:5:abc" 8 9).2.2).filter
      (fun eff => eff == Effect.execTouch "abc" "/tmp/hermit_approval.lock")).length = 1 ∧
    Effect.execTouch "abc" "/tmp/hermit_deny.lock" ∉
      (handleCallbackQuery envW8 ⟨[], [logW]⟩ 77 "approve:5:abc" 8 9).2.2 ∧
    (∀ e ∈ [logW], e.id = 5 → e.status = "pending" →
      { e with status := "denied", approved_by := some (77 : Int) }
        ∈ ((handleCallbackQuery envW8 ⟨[], [logW]⟩ 77 "deny:5:abc" 8 9).2.1).logs) ∧
    (((handleCallbackQuery envW8 ⟨[], [logW]⟩ 77 "deny:5:abc" 8 9).2.2).filter
      (fun eff => eff == Effect.execTouch "abc" "/tmp/hermit_deny.lock")).length = 1 ∧
    Effect.execTouch "abc" "/tmp/hermit_approval.lock" ∉
      (handleCallbackQuery envW8 ⟨[], [logW]⟩ 77 "deny:5:abc" 8 9).2.2 ∧
    (∀ (logs : List AuditLogEntry) (i : Int) (stt : String) (b : Int),
      (∀ e ∈ logs, e.id = i → e.status ≠ "pending") →
      updateAuditLog logs i stt b = logs) ∧
    (∀ (logs : List AuditLogEntry) (i : Int) (s1 : String) (b1 : Int)
       (s2 : String) (b2 : Int), s1 ≠ "pending" →
      updateAuditLog (updateAuditLog logs i s1 b1) i s2 b2
        = updateAuditLog logs i s1 b1) :=
  claim_C6 envW8 ⟨[], [logW]⟩ 77 8 9 5 "5" "5" "abc" "approve:5:abc" "deny:5:abc"
    (by decide) (by decide) (by decide) (by decide) (by decide) rfl
